import Mathlib

/-!
Verification of the tardis backup manifest engine.

This file embeds the core of `tardis/manifest.py`, `tardis/tree.py`,
`tardis/util.py` and `tardis/__init__.py` as executable Lean definitions and
proves properties of them.  Filesystem and network access are abstracted:
the live metadata and content of a file are passed in explicitly, the SHA-1
function is an arbitrary parameter, the remote store is a predicate on keys,
and the csv module is modelled at the record level (a stream is a list of
records, each record a list of string fields; the csv layer's quoting makes
this faithful for arbitrary field contents).  Python `str`/`int` conversion
of integers is modelled by an executable decimal printer and parser below.
-/

namespace Tardis

/-! ### Decimal integers: Python `str` and `int` on canonical integers -/

/-- The character for a single decimal digit. -/
def digitChar (d : Nat) : Char :=
  match d with
  | 0 => '0' | 1 => '1' | 2 => '2' | 3 => '3' | 4 => '4'
  | 5 => '5' | 6 => '6' | 7 => '7' | 8 => '8' | _ => '9'

/-- Decimal digit characters, most significant first, by repeated division;
`fuel` bounds the recursion and any `fuel ≥ n` is enough. -/
def toDigitsAux : Nat → Nat → List Char
  | 0, _ => []
  | fuel + 1, n =>
    if n = 0 then [] else toDigitsAux fuel (n / 10) ++ [digitChar (n % 10)]

/-- Decimal digit characters of `n`, most significant first. -/
def natDigitChars (n : Nat) : List Char :=
  toDigitsAux n n

/-- Python `str` on a non-negative integer. -/
def natRepr (n : Nat) : String :=
  if n = 0 then "0" else String.mk (natDigitChars n)

/-- Python `str` on an integer. -/
def pyIntRepr (i : Int) : String :=
  if i < 0 then "-" ++ natRepr i.natAbs else natRepr i.natAbs

/-- Numeric value of a decimal digit character, if it is one. -/
def digitVal (c : Char) : Option Nat :=
  if 48 ≤ c.toNat ∧ c.toNat ≤ 57 then some (c.toNat - 48) else none

/-- Parse a run of decimal digit characters, most significant first,
with accumulator `acc`. -/
def parseNatFrom (acc : Nat) : List Char → Option Nat
  | [] => some acc
  | c :: cs =>
    match digitVal c with
    | some d => parseNatFrom (acc * 10 + d) cs
    | none => none

/-- Parse a non-empty run of decimal digit characters. -/
def parseNat (cs : List Char) : Option Nat :=
  match cs with
  | [] => none
  | _ :: _ => parseNatFrom 0 cs

/-- Python `int` applied to a string: an optional minus sign followed by a
non-empty run of decimal digits.  (The builtin additionally tolerates
surrounding whitespace and an explicit plus sign; those forms are never
produced by `str` and play no role here.) -/
def pyIntParse (s : String) : Option Int :=
  match s.data with
  | [] => none
  | c :: rest =>
    if c = '-' then (parseNat rest).map (fun n => -(n : Int))
    else (parseNat (c :: rest)).map (fun n => (n : Int))

/-! ### `os.path.basename` -/

/-- `os.path.basename`: the part of `p` after the last slash (empty when
`p` ends in a slash). -/
def basename (p : String) : String :=
  String.mk (p.data.foldl (fun acc c => if c = '/' then [] else acc ++ [c]) [])

/-! ### Python dicts as association lists

A CPython dict is modelled as an association list with unique keys kept in
insertion order; `dictInsert` is assignment (replace in place or append),
`dictGet` is lookup, `dictBeq` is dict equality (same keys, same values). -/

/-- Assignment `d[k] = v`. -/
def dictInsert {β : Type} (d : List (String × β)) (k : String) (v : β) :
    List (String × β) :=
  match d with
  | [] => [(k, v)]
  | (k', v') :: rest =>
    if k' = k then (k, v) :: rest else (k', v') :: dictInsert rest k v

/-- Lookup `d.get(k)`. -/
def dictGet {β : Type} (d : List (String × β)) (k : String) : Option β :=
  match d with
  | [] => none
  | (k', v') :: rest => if k' = k then some v' else dictGet rest k

/-- `dict(pairs)`, or a dict comprehension: insert in iteration order,
later occurrences of a key overwriting earlier ones. -/
def dictOf {β : Type} (pairs : List (String × β)) : List (String × β) :=
  pairs.foldl (fun d kv => dictInsert d kv.1 kv.2) []

/-- `d.update(other)`. -/
def dictUpdate {β : Type} (d other : List (String × β)) : List (String × β) :=
  other.foldl (fun acc kv => dictInsert acc kv.1 kv.2) d

/-! ### StatInfo, FileEntry and the NullFileEntry sentinel -/

/-- `StatInfo`: the six-field metadata namedtuple.  Owner and group are
names; mode, ctime, mtime and size are Python integers. -/
structure StatInfo where
  owner : String
  group : String
  mode : Int
  ctime : Int
  mtime : Int
  size : Int
  deriving DecidableEq, Repr

/-- `FileEntry`: path, object id and metadata snapshot. -/
structure FileEntry where
  path : String
  object_id : String
  stat_info : StatInfo
  deriving DecidableEq, Repr

/-- `FileEntry.__init__` with an explicit `stat_info` (every call site in
the scan, cache-load and csv paths passes one): an empty (falsy) path or
object id raises `ValueError`. -/
def FileEntry.create (file_path object_id : String) (stat_info : StatInfo) :
    Except String FileEntry :=
  if file_path = "" then Except.error "ValueError: Must specify a file path"
  else if object_id = "" then Except.error "ValueError: Must specify an object id"
  else Except.ok ⟨file_path, object_id, stat_info⟩

/-- `FileEntry.checksum`: the basename of the object id. -/
def FileEntry.checksum (e : FileEntry) : String := basename e.object_id

/-- A manifest value as handled at runtime: either a real `FileEntry` or
the `NullFileEntry` sentinel returned for missing keys. -/
inductive Entry where
  | file : FileEntry → Entry
  | null : Entry
  deriving DecidableEq, Repr

/-- The runtime value of the `checksum` attribute: on a `FileEntry` it is a
string property; on `NullFileEntry` it is an (uncalled) bound method, which
compares `!=` to every string. -/
inductive ChecksumAttr where
  | str : String → ChecksumAttr
  | boundMethod : ChecksumAttr
  deriving DecidableEq, Repr

def Entry.checksumAttr : Entry → ChecksumAttr
  | .file f => .str f.checksum
  | .null => .boundMethod

/-- The runtime value of the `stat_info` attribute: a six-field namedtuple
on a `FileEntry`, the empty tuple on `NullFileEntry`; tuples of different
lengths compare unequal. -/
inductive StatAttr where
  | info : StatInfo → StatAttr
  | emptyTuple : StatAttr
  deriving DecidableEq, Repr

def Entry.statAttr : Entry → StatAttr
  | .file f => .info f.stat_info
  | .null => .emptyTuple

/-- `checksum_differs`: `NullFileEntry.checksum_differs` is constantly
true; `FileEntry.checksum_differs` compares the `checksum` attributes with
`!=`. -/
def Entry.checksum_differs : Entry → Entry → Bool
  | .null, _ => true
  | .file f, other => decide (ChecksumAttr.str f.checksum ≠ other.checksumAttr)

/-- `FileEntry.as_fields`, composed with the csv writer's `str` conversion
of each field. -/
def FileEntry.as_fields (e : FileEntry) : List String :=
  [e.path, e.object_id, e.stat_info.owner, e.stat_info.group,
   pyIntRepr e.stat_info.mode, pyIntRepr e.stat_info.ctime,
   pyIntRepr e.stat_info.mtime, pyIntRepr e.stat_info.size]

/-- `fields[i]`: raises `IndexError` when out of range. -/
def getField (fields : List String) (i : Nat) : Except String String :=
  match fields.get? i with
  | some s => Except.ok s
  | none => Except.error "IndexError: list index out of range"

/-- `int(s)` (and Python 2 `long(s)`): raises `ValueError` on a malformed
numeral. -/
def pyIntExcept (s : String) : Except String Int :=
  match pyIntParse s with
  | some i => Except.ok i
  | none => Except.error "ValueError: invalid literal for int"

/-- `FileEntry.from_fields`: builds the `StatInfo` from fields 2-7 (the
argument tuple is evaluated first), then the entry from fields 0-1. -/
def FileEntry.from_fields (fields : List String) : Except String FileEntry := do
  let owner ← getField fields 2
  let group ← getField fields 3
  let mode ← pyIntExcept (← getField fields 4)
  let ctime ← pyIntExcept (← getField fields 5)
  let mtime ← pyIntExcept (← getField fields 6)
  let size ← pyIntExcept (← getField fields 7)
  let file_path ← getField fields 0
  let object_id ← getField fields 1
  FileEntry.create file_path object_id ⟨owner, group, mode, ctime, mtime, size⟩

/-! ### Content hashing: `sha1sum`, `_checksum_for_file`, `_object_id`

The SHA-1 digest itself is an arbitrary parameter `sha1` from byte strings
(modelled as `List Char`) to hex strings. -/

/-- `sha1sum(parts)`: updating a running SHA-1 with each part in turn
hashes the concatenation of the parts. -/
def sha1sum (sha1 : List Char → String) (parts : List (List Char)) : String :=
  sha1 parts.flatten

/-- `sha1sum` applied to a single string: iterating a Python string yields
its characters. -/
def sha1sumStr (sha1 : List Char → String) (s : String) : String :=
  sha1sum sha1 (s.data.map (fun c => [c]))

/-- The read loop `f.read(32768)` repeated until empty: the 32 KiB chunks of the
file content, in order. -/
def readChunks (content : List Char) : List (List Char) :=
  if h : content = [] then []
  else content.take 32768 :: readChunks (content.drop 32768)
termination_by content.length
decreasing_by
  simp only [List.length_drop]
  have hpos : 0 < content.length := List.length_pos.mpr h
  omega

/-- `DirectoryEntry._checksum_for_file` applied to the content of an
existing file: the streamed SHA-1 of the content. -/
def checksum_for_file (sha1 : List Char → String) (content : List Char) : String :=
  sha1sum sha1 (readChunks content)

/-! ### DirectoryEntry and the scan/cache core -/

/-- `DirectoryEntry._CACHE_IGNORE_LIMIT`. -/
def CACHE_IGNORE_LIMIT : Int := 2 ^ 16

/-- `DirectoryEntry._object_id` on a file with the given path and content. -/
def object_id_for (sha1 : List Char → String) (path : String) (content : List Char) :
    String :=
  "data/" ++ sha1sumStr sha1 (basename path) ++ "/" ++ checksum_for_file sha1 content

/-- The live filesystem view of one regular file: the `StatInfo` that
`StatInfo.for_file` returns, and the content that `open(path, 'rb')`
reads. -/
structure LiveFile where
  stat : StatInfo
  content : List Char
  deriving Repr

/-- `get_file_entry` inside `DirectoryEntry.for_directory`: `cache` is the
dict built by `create_cache`. -/
def get_file_entry (sha1 : List Char → String) (cache : List (String × FileEntry))
    (file_path : String) (live : LiveFile) : Except String Entry :=
  let stat_info := live.stat
  let fresh : Except String Entry :=
    (FileEntry.create file_path (object_id_for sha1 file_path live.content)
      stat_info).map Entry.file
  if stat_info.size > CACHE_IGNORE_LIMIT then
    let cached_entry : Entry :=
      match dictGet cache file_path with
      | some e => Entry.file e
      | none => Entry.null
    if cached_entry.statAttr = StatAttr.info stat_info then Except.ok cached_entry
    else fresh
  else fresh

/-- The outcome of opening and reading the per-directory cache file: the
csv records read, or an `OSError`/`IOError`. -/
inductive CacheRead where
  | records : List (List String) → CacheRead
  | osError : CacheRead
  deriving Repr

/-- Parsing each csv record of a cache file with `FileEntry.from_fields`,
in order, stopping at the first exception. -/
def parse_rows (rows : List (List String)) : Except String (List FileEntry) :=
  match rows with
  | [] => Except.ok []
  | row :: rest =>
    match FileEntry.from_fields row with
    | Except.error e => Except.error e
    | Except.ok entry =>
      match parse_rows rest with
      | Except.error e => Except.error e
      | Except.ok entries => Except.ok (entry :: entries)

/-- `create_cache` inside `for_directory`: an `OSError`/`IOError` while
opening or reading the cache file yields the empty dict; any other
exception — in particular `ValueError`/`IndexError` raised by
`FileEntry.from_fields` on a malformed record — is not caught and
propagates. -/
def create_cache (read : CacheRead) : Except String (List (String × FileEntry)) :=
  match read with
  | .osError => Except.ok []
  | .records rows =>
    match parse_rows rows with
    | Except.error e => Except.error e
    | Except.ok entries => Except.ok (dictOf (entries.map (fun e => (e.path, e))))

/-- `DirectoryEntry`: a directory path with the scan results for its
regular-file children. -/
structure DirectoryEntry where
  path : String
  entries : List Entry
  deriving Repr

/-- The per-file loop of `for_directory`: one `get_file_entry` call per
listed file, in scan order. -/
def scan_files (sha1 : List Char → String) (cache : List (String × FileEntry)) :
    List (String × LiveFile) → Except String (List Entry)
  | [] => Except.ok []
  | pf :: rest =>
    match get_file_entry sha1 cache pf.1 pf.2 with
    | Except.error e => Except.error e
    | Except.ok ent =>
      match scan_files sha1 cache rest with
      | Except.error e => Except.error e
      | Except.ok ents => Except.ok (ent :: ents)

/-- `DirectoryEntry.for_directory`, over an abstract directory listing:
`files` is the sorted list of regular-file children of `path` (the cache
file itself already excluded) with their live metadata and content. -/
def DirectoryEntry.for_directory (sha1 : List Char → String) (read : CacheRead)
    (path : String) (files : List (String × LiveFile)) :
    Except String DirectoryEntry :=
  match create_cache read with
  | Except.error e => Except.error e
  | Except.ok cache =>
    match scan_files sha1 cache files with
    | Except.error e => Except.error e
    | Except.ok entries => Except.ok ⟨path, entries⟩

/-! ### Tree (tardis/tree.py) -/

/-- `Tree`: a value with an ordered list of child trees. -/
inductive Tree (α : Type) where
  | node : α → List (Tree α) → Tree α

/-- The `value` property. -/
def Tree.value {α : Type} : Tree α → α
  | .node v _ => v

/-- The `children` property. -/
def Tree.children {α : Type} : Tree α → List (Tree α)
  | .node _ cs => cs

/-- `Tree.fmap`: apply `f` to the root value and recurse on each child. -/
def Tree.fmap {α β : Type} (f : α → β) : Tree α → Tree β
  | .node v cs => .node (f v) (cs.attach.map (fun c => Tree.fmap f c.1))
decreasing_by
  have h1 := List.sizeOf_lt_of_mem c.2
  simp only [Tree.node.sizeOf_spec]
  omega

/-- `Tree.__iter__`: pre-order flattening, root value first, then the
children's values in order. -/
def Tree.flatten {α : Type} : Tree α → List α
  | .node v cs => v :: (cs.attach.map (fun c => Tree.flatten c.1)).flatten
decreasing_by
  have h1 := List.sizeOf_lt_of_mem c.2
  simp only [Tree.node.sizeOf_spec]
  omega

/-- The bare shape of a tree: every value replaced by `()`. -/
def Tree.shape {α : Type} : Tree α → Tree Unit
  | .node _ cs => .node () (cs.attach.map (fun c => Tree.shape c.1))
decreasing_by
  have h1 := List.sizeOf_lt_of_mem c.2
  simp only [Tree.node.sizeOf_spec]
  omega

/-! ### Manifest -/

/-- `Manifest`: a name and a dict from file path to `FileEntry`. -/
structure Manifest where
  name : String
  manifest : List (String × FileEntry)
  deriving DecidableEq, Repr

/-- `Manifest.__init__`: copies the given mapping with `dict(...)`. -/
def Manifest.make (name : String) (manifest : List (String × FileEntry)) :
    Manifest :=
  ⟨name, dictOf manifest⟩

/-- `Manifest.__getitem__`: lookup defaulting to the `NullFileEntry`
sentinel, never raising. -/
def Manifest.getitem (m : Manifest) (item : String) : Entry :=
  match dictGet m.manifest item with
  | some e => Entry.file e
  | none => Entry.null

/-- `Manifest.__contains__`. -/
def Manifest.holds (m : Manifest) (item : String) : Bool :=
  (dictGet m.manifest item).isSome

/-- Python dict equality: the same keys bound to the same values. -/
def dictBeq (a b : List (String × FileEntry)) : Bool :=
  a.all (fun kv => decide (dictGet b kv.1 = some kv.2)) &&
  b.all (fun kv => decide (dictGet a kv.1 = some kv.2))

/-- `Manifest.__eq__`: structural equality of the name and the entry
mapping (`__dict__` comparison). -/
def Manifest.beq (a b : Manifest) : Bool :=
  decide (a.name = b.name) && dictBeq a.manifest b.manifest

/-- `Manifest.to_csv`: one header record holding only the name, then one
record per entry, in mapping order, each entry serialized by
`as_fields`. -/
def Manifest.to_csv (m : Manifest) : List (List String) :=
  [m.name] :: m.manifest.map (fun kv => kv.2.as_fields)

/-- The entry-reading loop of `Manifest.from_csv`. -/
def from_csv_rows (rows : List (List String)) (d : List (String × FileEntry)) :
    Except String (List (String × FileEntry)) :=
  match rows with
  | [] => Except.ok d
  | row :: rest =>
    match FileEntry.from_fields row with
    | Except.error e => Except.error e
    | Except.ok entry => from_csv_rows rest (dictInsert d entry.path entry)

/-- `Manifest.from_csv`: the first record's first field is the name; every
further record becomes an entry keyed by its own path, a later duplicate
path overwriting an earlier one.  An empty stream raises
`StopIteration`. -/
def Manifest.from_csv (rows : List (List String)) : Except String Manifest :=
  match rows with
  | [] => Except.error "StopIteration"
  | nameRow :: rest => do
    let manifest_name ← getField nameRow 0
    let file_entries ← from_csv_rows rest []
    pure ⟨manifest_name, file_entries⟩

/-- `Manifest.name_for`, with the `iso8601()` timestamp passed in. -/
def Manifest.name_for (hostname user timestamp : String) : String :=
  "manifest/" ++ hostname ++ "/" ++ user ++ "/" ++ timestamp

/-- Reading the `path` attribute of each iterated entry: on a
`NullFileEntry` this would raise `AttributeError`. -/
def entries_to_files : List Entry → Except String (List FileEntry)
  | [] => Except.ok []
  | Entry.null :: _ => Except.error "AttributeError: no attribute path"
  | Entry.file f :: rest =>
    match entries_to_files rest with
    | Except.error e => Except.error e
    | Except.ok fs => Except.ok (f :: fs)

/-- The body of `Manifest._build_manifest` after the walk:
`{ entry.path: entry for entry in itertools.chain.from_iterable(manifest_tree) }`,
where iterating the tree yields every `DirectoryEntry` in pre-order and
iterating a `DirectoryEntry` yields its entries. -/
def build_manifest_entries (manifest_tree : Tree DirectoryEntry) :
    Except String (List (String × FileEntry)) :=
  match entries_to_files ((manifest_tree.flatten.map DirectoryEntry.entries).flatten) with
  | Except.error e => Except.error e
  | Except.ok files => Except.ok (dictOf (files.map (fun f => (f.path, f))))

/-- The per-root loop of `from_filesystem`:
`file_entries.update(cls._build_manifest(path, ...))` for each backup
root. -/
def merge_roots (acc : List (String × FileEntry)) :
    List (Tree DirectoryEntry) → Except String (List (String × FileEntry))
  | [] => Except.ok acc
  | root :: rest =>
    match build_manifest_entries root with
    | Except.error e => Except.error e
    | Except.ok d => merge_roots (dictUpdate acc d) rest

/-- `Manifest.from_filesystem`, over the already-walked directory trees of
the backup roots (`Tree.build_tree` composed with
`fmap to_directory_entry`, abstracted as one `Tree DirectoryEntry` per
root): validates the arguments, then merges every root's entries into one
mapping, later roots overwriting earlier ones on a path collision. -/
def Manifest.from_filesystem (hostname user timestamp : String)
    (roots : List (Tree DirectoryEntry)) : Except String Manifest :=
  if hostname = "" then Except.error "ValueError: hostname must be a non-empty string"
  else if user = "" then Except.error "ValueError: user must be a non-empty string"
  else if roots.isEmpty then Except.error "ValueError: paths must be an iterable"
  else
    match merge_roots [] roots with
    | Except.error e => Except.error e
    | Except.ok file_entries =>
      Except.ok ⟨Manifest.name_for hostname user timestamp, file_entries⟩

/-! ### Backup decision procedure (tardis/__init__.py) -/

/-- `needs_put(bucket, entry, new_entry)`, the remote store abstracted to
the key predicate `bucket_has`.  At its only call site, in `backup`,
`entry` is the entry from the freshly built manifest — always a real
`FileEntry` — and `new_entry` is the corresponding entry of the latest
manifest, possibly the sentinel. -/
def needs_put (bucket_has : String → Bool) (entry : FileEntry) (new_entry : Entry) :
    Bool :=
  if (Entry.file entry).checksum_differs new_entry
      || new_entry.checksum_differs (Entry.file entry) then
    if !bucket_has entry.object_id then true else false
  else false

/-- A write against the remote store performed by `backup`. -/
inductive Effect where
  | putArchive : FileEntry → Effect
  | putManifest : Manifest → Effect
  deriving Repr

/-- `backup`: the ordered list of writes it performs, given the results of
the injected `get_manifest` and `create_manifest` calls.  On a key of
`new_manifest` the subscript always yields a real entry, so the
`Entry.null` arm is unreachable. -/
def backup (bucket_has : String → Bool) (latest_manifest new_manifest : Manifest) :
    List Effect :=
  if Manifest.beq new_manifest latest_manifest then []
  else
    (new_manifest.manifest.map (fun kv =>
      match Manifest.getitem new_manifest kv.1 with
      | Entry.file e =>
        if needs_put bucket_has e (Manifest.getitem latest_manifest kv.1)
        then [Effect.putArchive e] else []
      | Entry.null => [])).flatten
    ++ [Effect.putManifest new_manifest]


/-! ### Supporting lemmas -/

theorem toDigitsAux_eq {fuel n : Nat} (h : n ≤ fuel) :
    toDigitsAux fuel n = ((Nat.digits 10 n).map digitChar).reverse := by
  induction fuel generalizing n with
  | zero =>
    interval_cases n
    simp [toDigitsAux]
  | succ fuel ih =>
    by_cases hn : n = 0
    · subst hn
      simp [toDigitsAux]
    · have hdiv : n / 10 ≤ fuel := by
        have := Nat.div_lt_self (Nat.pos_of_ne_zero hn) (by norm_num : 1 < 10)
        omega
      simp only [toDigitsAux, if_neg hn, ih hdiv,
        Nat.digits_def' (by norm_num : 1 < 10) (Nat.pos_of_ne_zero hn),
        List.map_cons, List.reverse_cons]

theorem natDigitChars_eq (n : Nat) :
    natDigitChars n = ((Nat.digits 10 n).map digitChar).reverse :=
  toDigitsAux_eq le_rfl

theorem digitVal_digitChar {d : Nat} (hd : d < 10) :
    digitVal (digitChar d) = some d := by
  interval_cases d <;> decide

theorem parseNatFrom_digits (l : List Nat) (hl : ∀ d ∈ l, d < 10) (acc : Nat) :
    parseNatFrom acc (l.map digitChar) =
      some (l.foldl (fun a d => a * 10 + d) acc) := by
  induction l generalizing acc with
  | nil => simp [parseNatFrom]
  | cons d l ih =>
    have hd : d < 10 := hl d (by simp)
    simp only [List.map_cons, parseNatFrom, digitVal_digitChar hd, List.foldl_cons]
    exact ih (fun x hx => hl x (by simp [hx])) _

theorem foldl_digits_eq_ofDigits (l : List Nat) :
    l.reverse.foldl (fun a d => a * 10 + d) 0 = Nat.ofDigits 10 l := by
  rw [List.foldl_reverse]
  induction l with
  | nil => simp [Nat.ofDigits]
  | cons d l ih => simp [Nat.ofDigits, List.foldr_cons, ih]; ring

theorem parseNat_of_ne_nil {cs : List Char} (h : cs ≠ []) :
    parseNat cs = parseNatFrom 0 cs := by
  cases cs with
  | nil => exact absurd rfl h
  | cons c cs => rfl

theorem parseNat_natDigitChars {n : Nat} (hn : n ≠ 0) :
    parseNat (natDigitChars n) = some n := by
  have hne : Nat.digits 10 n ≠ [] := Nat.digits_ne_nil_iff_ne_zero.mpr hn
  have hrev : ∀ d ∈ (Nat.digits 10 n).reverse, d < 10 := by
    intro d hd
    exact Nat.digits_lt_base (by norm_num) (List.mem_reverse.mp hd)
  have hmap : natDigitChars n = ((Nat.digits 10 n).reverse).map digitChar := by
    rw [natDigitChars_eq]
    simp [List.map_reverse]
  have hnil : natDigitChars n ≠ [] := by
    rw [hmap]
    simp [hne]
  rw [parseNat_of_ne_nil hnil, hmap, parseNatFrom_digits _ hrev 0,
    foldl_digits_eq_ofDigits, Nat.ofDigits_digits]

theorem mem_natDigitChars_isDigit {n : Nat} {c : Char}
    (hc : c ∈ natDigitChars n) : 48 ≤ c.toNat ∧ c.toNat ≤ 57 := by
  rw [natDigitChars_eq] at hc
  simp only [List.mem_reverse, List.mem_map] at hc
  obtain ⟨d, hd, rfl⟩ := hc
  have hlt : d < 10 := Nat.digits_lt_base (by norm_num) hd
  interval_cases d <;> decide

theorem natRepr_head_digit (n : Nat) :
    ∃ c cs, (natRepr n).data = c :: cs ∧ 48 ≤ c.toNat ∧ c.toNat ≤ 57 := by
  by_cases hn : n = 0
  · subst hn
    refine ⟨'0', [], by simp [natRepr], by decide, by decide⟩
  · have hne : Nat.digits 10 n ≠ [] := Nat.digits_ne_nil_iff_ne_zero.mpr hn
    have hnil : natDigitChars n ≠ [] := by
      rw [natDigitChars_eq]
      simp [hne]
    cases hm : natDigitChars n with
    | nil => exact absurd hm hnil
    | cons c cs =>
      have hc : c ∈ natDigitChars n := by simp [hm]
      exact ⟨c, cs, by simp [natRepr, hn, String.mk, hm], mem_natDigitChars_isDigit hc⟩

theorem parseNat_natRepr (n : Nat) : parseNat (natRepr n).data = some n := by
  by_cases hn : n = 0
  · subst hn
    decide
  · have : (natRepr n).data = natDigitChars n := by
      simp [natRepr, hn, String.mk]
    rw [this]
    exact parseNat_natDigitChars hn

/-- `int(str(i)) = i`: parsing the canonical decimal form recovers the
integer. -/
theorem pyIntParse_pyIntRepr (i : Int) : pyIntParse (pyIntRepr i) = some i := by
  by_cases hi : i < 0
  · have hdata : (pyIntRepr i).data = '-' :: (natRepr i.natAbs).data := by
      simp [pyIntRepr, hi, String.data_append]
    unfold pyIntParse
    rw [hdata]
    show (if '-' = '-' then (parseNat (natRepr i.natAbs).data).map (fun n => -(n : Int))
          else (parseNat ('-' :: (natRepr i.natAbs).data)).map (fun n => (n : Int))) = some i
    rw [if_pos rfl, parseNat_natRepr]
    simp [Int.ofNat_natAbs_of_nonpos (le_of_lt hi)]
  · obtain ⟨c, cs, hcs, hc48, hc57⟩ := natRepr_head_digit i.natAbs
    have hdata : (pyIntRepr i).data = c :: cs := by
      simp [pyIntRepr, hi, hcs]
    have hcne : c ≠ '-' := by
      intro h
      subst h
      exact absurd hc48 (by decide)
    unfold pyIntParse
    rw [hdata]
    show (if c = '-' then (parseNat cs).map (fun n => -(n : Int))
          else (parseNat (c :: cs)).map (fun n => (n : Int))) = some i
    rw [if_neg hcne, ← hcs, parseNat_natRepr]
    simp [Int.natAbs_of_nonneg (not_lt.mp hi)]

theorem dictGet_insert {β : Type} (d : List (String × β)) (k : String) (v : β)
    (q : String) :
    dictGet (dictInsert d k v) q = if k = q then some v else dictGet d q := by
  induction d with
  | nil => simp [dictInsert, dictGet]
  | cons kv rest ih =>
    obtain ⟨a, w⟩ := kv
    by_cases hk : a = k
    · subst hk
      by_cases hq : a = q <;> simp [dictInsert, dictGet, hq]
    · by_cases hq : a = q
      · subst hq
        have : ¬ (k = a) := fun h => hk h.symm
        simp [dictInsert, dictGet, hk, this]
      · simp [dictInsert, dictGet, hk, hq, ih]

theorem dictInsert_fresh {β : Type} {d : List (String × β)} {k : String} (v : β)
    (h : ∀ kv ∈ d, kv.1 ≠ k) : dictInsert d k v = d ++ [(k, v)] := by
  induction d with
  | nil => simp [dictInsert]
  | cons kv rest ih =>
    obtain ⟨a, w⟩ := kv
    have ha : a ≠ k := h (a, w) (by simp)
    simp [dictInsert, ha]
    exact ih (fun kv hkv => h kv (by simp [hkv]))

theorem mem_dictInsert {β : Type} {d : List (String × β)} {k : String} {v : β}
    {x : String × β} (h : x ∈ dictInsert d k v) : x = (k, v) ∨ x ∈ d := by
  induction d with
  | nil => simpa [dictInsert] using h
  | cons kv rest ih =>
    obtain ⟨a, w⟩ := kv
    by_cases ha : a = k
    · subst ha
      simp [dictInsert] at h
      rcases h with h | h
      · exact Or.inl (by simp [h])
      · exact Or.inr (by simp [h])
    · simp [dictInsert, ha] at h
      rcases h with h | h
      · exact Or.inr (by simp [h])
      · rcases ih h with h' | h'
        · exact Or.inl h'
        · exact Or.inr (by simp [h'])

theorem mem_of_dictGet {β : Type} {d : List (String × β)} {k : String} {v : β}
    (h : dictGet d k = some v) : (k, v) ∈ d := by
  induction d with
  | nil => simp [dictGet] at h
  | cons kv rest ih =>
    obtain ⟨a, w⟩ := kv
    by_cases ha : a = k
    · subst ha
      simp [dictGet] at h
      simp [h]
    · simp [dictGet, ha] at h
      simp [ih h]

theorem dictGet_of_mem {β : Type} {d : List (String × β)} {k : String} {v : β}
    (hn : (d.map Prod.fst).Nodup) (h : (k, v) ∈ d) : dictGet d k = some v := by
  induction d with
  | nil => simp at h
  | cons kv rest ih =>
    obtain ⟨a, w⟩ := kv
    simp at h
    rcases h with ⟨ha, hw⟩ | h
    · simp [dictGet, ha, hw]
    · have hcons : a ∉ rest.map Prod.fst ∧ (rest.map Prod.fst).Nodup := by
        simpa [List.nodup_cons] using hn
      have ha : a ≠ k := by
        intro hak
        subst hak
        exact hcons.1 (List.mem_map.mpr ⟨(a, v), h, rfl⟩)
      simp [dictGet, ha, ih hcons.2 h]

theorem dictGet_perm {β : Type} {a b : List (String × β)} (hp : a.Perm b)
    (hn : (a.map Prod.fst).Nodup) (k : String) : dictGet a k = dictGet b k := by
  have hnb : (b.map Prod.fst).Nodup := ((hp.map Prod.fst).nodup_iff).mp hn
  cases hga : dictGet a k with
  | some v =>
    have hm : (k, v) ∈ b := (hp.mem_iff).mp (mem_of_dictGet hga)
    exact (dictGet_of_mem hnb hm).symm
  | none =>
    cases hgb : dictGet b k with
    | some w =>
      have hm : (k, w) ∈ a := (hp.mem_iff).mpr (mem_of_dictGet hgb)
      rw [dictGet_of_mem hn hm] at hga
      exact absurd hga (by simp)
    | none => rfl

theorem Tree.fmap_node {α β : Type} (f : α → β) (v : α) (cs : List (Tree α)) :
    Tree.fmap f (.node v cs) = .node (f v) (cs.map (fun c => Tree.fmap f c)) := by
  conv_lhs => rw [Tree.fmap]
  rw [List.attach_map_val]

theorem Tree.flatten_node {α : Type} (v : α) (cs : List (Tree α)) :
    Tree.flatten (.node v cs) = v :: (cs.map (fun c => Tree.flatten c)).flatten := by
  conv_lhs => rw [Tree.flatten]
  rw [List.attach_map_val]

theorem Tree.shape_node {α : Type} (v : α) (cs : List (Tree α)) :
    Tree.shape (.node v cs) = .node () (cs.map (fun c => Tree.shape c)) := by
  conv_lhs => rw [Tree.shape]
  rw [List.attach_map_val]

/-- Structural induction for `Tree`. -/
theorem Tree.inductionOn {α : Type} {P : Tree α → Prop}
    (h : ∀ (v : α) (cs : List (Tree α)), (∀ c ∈ cs, P c) → P (Tree.node v cs)) :
    ∀ t, P t
  | .node v cs => h v cs (fun c hc => Tree.inductionOn h c)
termination_by t => sizeOf t
decreasing_by
  have h1 := List.sizeOf_lt_of_mem hc
  simp only [Tree.node.sizeOf_spec]
  omega

theorem bind_ok_inv {A B : Type} {ex : Except String A} {f : A → Except String B}
    {b : B} (h : (ex >>= f) = Except.ok b) :
    ∃ a, ex = Except.ok a ∧ f a = Except.ok b := by
  cases ex with
  | error m => simp [Bind.bind, Except.bind] at h
  | ok a => exact ⟨a, rfl, by simpa [Bind.bind, Except.bind] using h⟩

theorem FileEntry.create_ok {p o : String} (s : StatInfo) (hp : p ≠ "")
    (ho : o ≠ "") : FileEntry.create p o s = Except.ok ⟨p, o, s⟩ := by
  simp [FileEntry.create, hp, ho]

theorem FileEntry.create_eq_ok {p o : String} {s : StatInfo} {e : FileEntry}
    (h : FileEntry.create p o s = Except.ok e) :
    e = ⟨p, o, s⟩ ∧ p ≠ "" ∧ o ≠ "" := by
  by_cases hp : p = ""
  · simp [FileEntry.create, hp] at h
  · by_cases ho : o = ""
    · simp [FileEntry.create, hp, ho] at h
    · simp [FileEntry.create, hp, ho] at h
      exact ⟨h.symm, hp, ho⟩

theorem from_fields_ok_inv {row : List String} {e : FileEntry}
    (h : FileEntry.from_fields row = Except.ok e) :
    e.path ≠ "" ∧ e.object_id ≠ "" := by
  unfold FileEntry.from_fields at h
  obtain ⟨x1, h1, h⟩ := bind_ok_inv h
  obtain ⟨x2, h2, h⟩ := bind_ok_inv h
  obtain ⟨x3, h3, h⟩ := bind_ok_inv h
  obtain ⟨x4, h4, h⟩ := bind_ok_inv h
  obtain ⟨x5, h5, h⟩ := bind_ok_inv h
  obtain ⟨x6, h6, h⟩ := bind_ok_inv h
  obtain ⟨x7, h7, h⟩ := bind_ok_inv h
  obtain ⟨x8, h8, h⟩ := bind_ok_inv h
  obtain ⟨x9, h9, h⟩ := bind_ok_inv h
  obtain ⟨x10, h10, h⟩ := bind_ok_inv h
  obtain ⟨x11, h11, h⟩ := bind_ok_inv h
  obtain ⟨x12, h12, h⟩ := bind_ok_inv h
  obtain ⟨rfl, hp, ho⟩ := FileEntry.create_eq_ok h
  exact ⟨hp, ho⟩

theorem from_fields_as_fields {e : FileEntry} (hp : e.path ≠ "")
    (ho : e.object_id ≠ "") :
    FileEntry.from_fields e.as_fields = Except.ok e := by
  obtain ⟨p, o, ⟨ow, g, mo, ct, mt, sz⟩⟩ := e
  simp only at hp ho
  unfold FileEntry.from_fields
  simp [FileEntry.as_fields, getField, pyIntExcept, pyIntParse_pyIntRepr,
    FileEntry.create, hp, ho, Bind.bind, Except.bind]

theorem parse_rows_mem {rows : List (List String)} {es : List FileEntry}
    (h : parse_rows rows = Except.ok es) :
    ∀ e ∈ es, ∃ row ∈ rows, FileEntry.from_fields row = Except.ok e := by
  induction rows generalizing es with
  | nil =>
    simp [parse_rows] at h
    subst h
    simp
  | cons row rest ih =>
    unfold parse_rows at h
    cases hf : FileEntry.from_fields row with
    | error m =>
      rw [hf] at h
      exact absurd h (by simp)
    | ok entry =>
      rw [hf] at h
      cases hr : parse_rows rest with
      | error m =>
        rw [hr] at h
        exact absurd h (by simp)
      | ok entries =>
        rw [hr] at h
        simp at h
        subst h
        intro e he
        rcases List.mem_cons.mp he with rfl | he'
        · exact ⟨row, by simp, hf⟩
        · obtain ⟨r, hr', hfe⟩ := ih hr e he'
          exact ⟨r, by simp [hr'], hfe⟩

theorem mem_foldl_dictInsert {β : Type} {pairs : List (String × β)}
    {acc : List (String × β)} {x : String × β}
    (h : x ∈ pairs.foldl (fun d kv => dictInsert d kv.1 kv.2) acc) :
    x ∈ acc ∨ x ∈ pairs := by
  induction pairs generalizing acc with
  | nil =>
    simp at h
    exact Or.inl h
  | cons kv rest ih =>
    rw [List.foldl_cons] at h
    rcases ih h with h' | h'
    · rcases mem_dictInsert h' with h'' | h''
      · right
        simp [h'', Prod.mk.eta]
      · exact Or.inl h''
    · right
      simp [h']

theorem mem_dictOf {β : Type} {pairs : List (String × β)} {x : String × β}
    (h : x ∈ dictOf pairs) : x ∈ pairs := by
  rcases mem_foldl_dictInsert h with h' | h'
  · simp at h'
  · exact h'

theorem mem_dictUpdate {β : Type} {d other : List (String × β)} {x : String × β}
    (h : x ∈ dictUpdate d other) : x ∈ d ∨ x ∈ other :=
  mem_foldl_dictInsert h

theorem create_cache_valid {read : CacheRead} {cache : List (String × FileEntry)}
    (h : create_cache read = Except.ok cache) :
    ∀ kv ∈ cache, kv.2.path ≠ "" ∧ kv.2.object_id ≠ "" := by
  cases read with
  | osError =>
    simp [create_cache] at h
    subst h
    simp
  | records rows =>
    simp only [create_cache] at h
    cases hp : parse_rows rows with
    | error m =>
      rw [hp] at h
      exact absurd h (by simp)
    | ok entries =>
      rw [hp] at h
      simp at h
      subst h
      intro kv hkv
      have hmem := mem_dictOf hkv
      rcases List.mem_map.mp hmem with ⟨e, he, hkv2⟩
      obtain ⟨row, hrowmem, hrow⟩ := parse_rows_mem hp e he
      have hv := from_fields_ok_inv hrow
      rw [← hkv2]
      exact hv

theorem map_entry_ok {x : Except String FileEntry} {ent : Entry}
    (h : Except.map Entry.file x = Except.ok ent) :
    ∃ f, x = Except.ok f ∧ ent = Entry.file f := by
  cases x with
  | error m => simp [Except.map] at h
  | ok f =>
    refine ⟨f, rfl, ?_⟩
    have h' : Entry.file f = ent := by simpa [Except.map] using h
    exact h'.symm

theorem object_id_for_ne_empty (sha1 : List Char → String) (path : String)
    (content : List Char) : object_id_for sha1 path content ≠ "" := by
  intro h
  have hlen := congrArg String.length h
  rw [object_id_for] at hlen
  simp only [String.length_append] at hlen
  have h5 : ("data/").length = 5 := rfl
  have h0 : ("").length = 0 := rfl
  omega

theorem get_file_entry_ok {sha1 : List Char → String}
    {cache : List (String × FileEntry)} {file_path : String} {live : LiveFile}
    (hp : file_path ≠ "") :
    ∃ ent, get_file_entry sha1 cache file_path live = Except.ok ent := by
  have hfresh : (FileEntry.create file_path
      (object_id_for sha1 file_path live.content) live.stat).map Entry.file =
      Except.ok (Entry.file ⟨file_path, object_id_for sha1 file_path live.content,
        live.stat⟩) := by
    rw [FileEntry.create_ok _ hp (object_id_for_ne_empty sha1 file_path live.content)]
    rfl
  unfold get_file_entry
  by_cases hsz : live.stat.size > CACHE_IGNORE_LIMIT
  · rw [if_pos hsz]
    by_cases hst : (match dictGet cache file_path with
        | some e => Entry.file e
        | none => Entry.null).statAttr = StatAttr.info live.stat
    · exact ⟨_, by rw [if_pos hst]⟩
    · exact ⟨_, by rw [if_neg hst]; exact hfresh⟩
  · rw [if_neg hsz]
    exact ⟨_, hfresh⟩

theorem get_file_entry_ok_inv {sha1 : List Char → String}
    {cache : List (String × FileEntry)} {file_path : String} {live : LiveFile}
    {ent : Entry}
    (hcache : ∀ kv ∈ cache, kv.2.path ≠ "" ∧ kv.2.object_id ≠ "")
    (h : get_file_entry sha1 cache file_path live = Except.ok ent) :
    ∃ f, ent = Entry.file f ∧ f.path ≠ "" ∧ f.object_id ≠ "" := by
  unfold get_file_entry at h
  by_cases hsz : live.stat.size > CACHE_IGNORE_LIMIT
  · rw [if_pos hsz] at h
    cases hdg : dictGet cache file_path with
    | some e =>
      rw [hdg] at h
      by_cases hst : (Entry.file e).statAttr = StatAttr.info live.stat
      · rw [if_pos hst] at h
        have hev := hcache (file_path, e) (mem_of_dictGet hdg)
        exact ⟨e, by simpa using h.symm, hev.1, hev.2⟩
      · rw [if_neg hst] at h
        obtain ⟨f, hcr, hent⟩ := map_entry_ok h
        obtain ⟨rfl, hp, ho⟩ := FileEntry.create_eq_ok hcr
        exact ⟨_, hent, hp, ho⟩
    | none =>
      rw [hdg] at h
      rw [if_neg (by simp [Entry.statAttr])] at h
      obtain ⟨f, hcr, hent⟩ := map_entry_ok h
      obtain ⟨rfl, hp, ho⟩ := FileEntry.create_eq_ok hcr
      exact ⟨_, hent, hp, ho⟩
  · rw [if_neg hsz] at h
    obtain ⟨f, hcr, hent⟩ := map_entry_ok h
    obtain ⟨rfl, hp, ho⟩ := FileEntry.create_eq_ok hcr
    exact ⟨_, hent, hp, ho⟩

theorem scan_files_ok {sha1 : List Char → String}
    {cache : List (String × FileEntry)} {files : List (String × LiveFile)}
    (hp : ∀ pf ∈ files, pf.1 ≠ "") :
    ∃ ents, scan_files sha1 cache files = Except.ok ents := by
  induction files with
  | nil => exact ⟨[], rfl⟩
  | cons pf rest ih =>
    obtain ⟨ent, hent⟩ :=
      @get_file_entry_ok sha1 cache pf.1 pf.2 (hp pf (by simp))
    obtain ⟨ents, hents⟩ := ih (fun q hq => hp q (by simp [hq]))
    exact ⟨ent :: ents, by simp [scan_files, hent, hents]⟩

theorem scan_files_mem {sha1 : List Char → String}
    {cache : List (String × FileEntry)} {files : List (String × LiveFile)}
    {ents : List Entry} (h : scan_files sha1 cache files = Except.ok ents) :
    ∀ ent ∈ ents, ∃ pf ∈ files, get_file_entry sha1 cache pf.1 pf.2 = Except.ok ent := by
  induction files generalizing ents with
  | nil =>
    simp [scan_files] at h
    subst h
    simp
  | cons pf rest ih =>
    unfold scan_files at h
    cases hf : get_file_entry sha1 cache pf.1 pf.2 with
    | error m =>
      rw [hf] at h
      exact absurd h (by simp)
    | ok ent0 =>
      rw [hf] at h
      cases hr : scan_files sha1 cache rest with
      | error m =>
        rw [hr] at h
        exact absurd h (by simp)
      | ok ents0 =>
        rw [hr] at h
        simp at h
        subst h
        intro ent hent
        rcases List.mem_cons.mp hent with rfl | hent'
        · exact ⟨pf, by simp, hf⟩
        · obtain ⟨q, hq, hge⟩ := ih hr ent hent'
          exact ⟨q, by simp [hq], hge⟩

theorem from_csv_rows_append :
    ∀ (vs : List FileEntry) (acc : List (String × FileEntry)),
    (∀ e ∈ vs, e.path ≠ "" ∧ e.object_id ≠ "") →
    (vs.map FileEntry.path).Nodup →
    (∀ e ∈ vs, ∀ kv ∈ acc, kv.1 ≠ e.path) →
    from_csv_rows (vs.map FileEntry.as_fields) acc =
      Except.ok (acc ++ vs.map (fun e => (e.path, e)))
  | [], acc, _, _, _ => by simp [from_csv_rows]
  | e :: rest, acc, hval, hnod, hfresh => by
    have hv := hval e (by simp)
    have hparse := from_fields_as_fields hv.1 hv.2
    have hcons : e.path ∉ rest.map FileEntry.path ∧
        (rest.map FileEntry.path).Nodup := by
      rw [List.map_cons, List.nodup_cons] at hnod
      exact hnod
    have hnotin := hcons.1
    have hnod' := hcons.2
    simp only [List.map_cons, from_csv_rows, hparse]
    rw [dictInsert_fresh _ (fun kv hkv => hfresh e (by simp) kv hkv)]
    rw [from_csv_rows_append rest (acc ++ [(e.path, e)])
      (fun e' he' => hval e' (by simp [he'])) hnod' ?_]
    · simp
    · intro e' he' kv hkv
      rcases List.mem_append.mp hkv with hkv' | hkv'
      · exact hfresh e' (by simp [he']) kv hkv'
      · simp at hkv'
        subst hkv'
        show e.path ≠ e'.path
        intro heq
        exact hnotin (heq ▸ List.mem_map.mpr ⟨e', he', rfl⟩)

theorem dictBeq_of_perm {a b : List (String × FileEntry)} (hp : a.Perm b)
    (hnb : (b.map Prod.fst).Nodup) : dictBeq a b = true := by
  have hna : (a.map Prod.fst).Nodup := ((hp.map Prod.fst).nodup_iff).mpr hnb
  unfold dictBeq
  rw [Bool.and_eq_true]
  constructor
  · rw [List.all_eq_true]
    intro kv hkv
    have hm : (kv.1, kv.2) ∈ b := by
      simpa [Prod.mk.eta] using hp.mem_iff.mp hkv
    simpa using dictGet_of_mem hnb hm
  · rw [List.all_eq_true]
    intro kv hkv
    have hm : (kv.1, kv.2) ∈ a := by
      simpa [Prod.mk.eta] using hp.mem_iff.mpr hkv
    simpa using dictGet_of_mem hna hm

theorem tree_shape_fmap {α β : Type} (f : α → β) (t : Tree α) :
    (t.fmap f).shape = t.shape := by
  induction t using Tree.inductionOn with
  | h v cs ih => ?_
  rw [Tree.fmap_node, Tree.shape_node, Tree.shape_node]
  congr 1
  rw [List.map_map]
  exact List.map_congr_left (fun c hc => ih c hc)

theorem tree_flatten_fmap {α β : Type} (f : α → β) (t : Tree α) :
    (t.fmap f).flatten = t.flatten.map f := by
  induction t using Tree.inductionOn with
  | h v cs ih => ?_
  rw [Tree.fmap_node, Tree.flatten_node, Tree.flatten_node]
  simp only [List.map_cons, List.map_map]
  congr 1
  rw [List.map_flatten, List.map_map]
  congr 1
  exact List.map_congr_left (fun c hc => ih c hc)

theorem coherent_dictInsert {d : List (String × FileEntry)} {k : String}
    {v : FileEntry} (hd : ∀ kv ∈ d, kv.1 = kv.2.path) (hk : k = v.path) :
    ∀ kv ∈ dictInsert d k v, kv.1 = kv.2.path := by
  intro kv hkv
  rcases mem_dictInsert hkv with h | h
  · rw [h]
    exact hk
  · exact hd kv h

theorem from_csv_rows_coherent {rows : List (List String)}
    {acc d : List (String × FileEntry)} (hacc : ∀ kv ∈ acc, kv.1 = kv.2.path)
    (h : from_csv_rows rows acc = Except.ok d) :
    ∀ kv ∈ d, kv.1 = kv.2.path := by
  induction rows generalizing acc with
  | nil =>
    simp [from_csv_rows] at h
    subst h
    exact hacc
  | cons row rest ih =>
    unfold from_csv_rows at h
    cases hf : FileEntry.from_fields row with
    | error m =>
      rw [hf] at h
      exact absurd h (by simp)
    | ok entry =>
      rw [hf] at h
      exact ih (coherent_dictInsert hacc rfl) h

theorem dictOf_coherent {pairs : List (String × FileEntry)}
    (h : ∀ kv ∈ pairs, kv.1 = kv.2.path) :
    ∀ kv ∈ dictOf pairs, kv.1 = kv.2.path :=
  fun kv hkv => h kv (mem_dictOf hkv)

theorem dictUpdate_coherent {d other : List (String × FileEntry)}
    (hd : ∀ kv ∈ d, kv.1 = kv.2.path) (ho : ∀ kv ∈ other, kv.1 = kv.2.path) :
    ∀ kv ∈ dictUpdate d other, kv.1 = kv.2.path := by
  intro kv hkv
  rcases mem_dictUpdate hkv with h | h
  · exact hd kv h
  · exact ho kv h

theorem build_manifest_entries_coherent {t : Tree DirectoryEntry}
    {d : List (String × FileEntry)} (h : build_manifest_entries t = Except.ok d) :
    ∀ kv ∈ d, kv.1 = kv.2.path := by
  unfold build_manifest_entries at h
  cases hf : entries_to_files ((t.flatten.map DirectoryEntry.entries).flatten) with
  | error m =>
    rw [hf] at h
    exact absurd h (by simp)
  | ok files =>
    rw [hf] at h
    simp at h
    subst h
    refine dictOf_coherent ?_
    intro kv hkv
    rcases List.mem_map.mp hkv with ⟨f, _, hfk⟩
    rw [← hfk]

theorem merge_roots_coherent {roots : List (Tree DirectoryEntry)}
    {acc d : List (String × FileEntry)} (hacc : ∀ kv ∈ acc, kv.1 = kv.2.path)
    (h : merge_roots acc roots = Except.ok d) :
    ∀ kv ∈ d, kv.1 = kv.2.path := by
  induction roots generalizing acc with
  | nil =>
    simp [merge_roots] at h
    subst h
    exact hacc
  | cons root rest ih =>
    unfold merge_roots at h
    cases hb : build_manifest_entries root with
    | error m =>
      rw [hb] at h
      exact absurd h (by simp)
    | ok d0 =>
      rw [hb] at h
      exact ih (dictUpdate_coherent hacc (build_manifest_entries_coherent hb)) h

/-! ### The claims -/

/-- C1: For every regular file scanned by `DirectoryEntry.for_directory`
(one `get_file_entry` step): if the live size is strictly greater than the
65536-byte threshold and the loaded cache holds an entry for the file's
path whose `StatInfo` equals the live `StatInfo`, the cached `FileEntry`
is returned unchanged (for every hash function, so no content hash is
computed); in every other case — size at or below the threshold, no cache
entry, or `StatInfo` mismatch — a fresh `FileEntry` is built from the live
`StatInfo` with object id `data/{sha1(basename)}/{sha1(content)}`. -/
theorem spec_c1_cache_reuse (sha1 : List Char → String)
    (cache : List (String × FileEntry)) (file_path : String) (live : LiveFile)
    (hp : file_path ≠ "") :
    (∀ e : FileEntry, live.stat.size > 65536 → dictGet cache file_path = some e →
      e.stat_info = live.stat →
      get_file_entry sha1 cache file_path live = Except.ok (Entry.file e)) ∧
    ((live.stat.size ≤ 65536 ∨ dictGet cache file_path = none ∨
      (∀ e : FileEntry, dictGet cache file_path = some e → e.stat_info ≠ live.stat)) →
      get_file_entry sha1 cache file_path live =
        Except.ok (Entry.file
          ⟨file_path, object_id_for sha1 file_path live.content, live.stat⟩)) := by
  have hlim : CACHE_IGNORE_LIMIT = 65536 := by norm_num [CACHE_IGNORE_LIMIT]
  have hfresh : (FileEntry.create file_path
      (object_id_for sha1 file_path live.content) live.stat).map Entry.file =
      Except.ok (Entry.file
        ⟨file_path, object_id_for sha1 file_path live.content, live.stat⟩) := by
    rw [FileEntry.create_ok _ hp (object_id_for_ne_empty sha1 file_path live.content)]
    rfl
  constructor
  · intro e hsz hdg hst
    unfold get_file_entry
    rw [if_pos (show live.stat.size > CACHE_IGNORE_LIMIT by omega)]
    rw [hdg]
    simp [Entry.statAttr, hst]
  · intro hmiss
    unfold get_file_entry
    rcases hmiss with hsz | hdg | hne
    · rw [if_neg (show ¬ live.stat.size > CACHE_IGNORE_LIMIT by omega)]
      exact hfresh
    · by_cases hsz : live.stat.size > CACHE_IGNORE_LIMIT
      · rw [if_pos hsz, hdg]
        simp [Entry.statAttr, hfresh]
      · rw [if_neg hsz]
        exact hfresh
    · by_cases hsz : live.stat.size > CACHE_IGNORE_LIMIT
      · rw [if_pos hsz]
        cases hdg : dictGet cache file_path with
        | some e => simp [Entry.statAttr, hne e hdg, hfresh]
        | none => simp [Entry.statAttr, hfresh]
      · rw [if_neg hsz]
        exact hfresh

theorem spec_c1_cache_reuse_witness :
    get_file_entry (fun cs => String.mk cs)
      [("f", ⟨"f", "data/h/h", ⟨"u", "g", 1, 2, 3, 70000⟩⟩)] "f"
      ⟨⟨"u", "g", 1, 2, 3, 70000⟩, ['x']⟩ =
      Except.ok (Entry.file ⟨"f", "data/h/h", ⟨"u", "g", 1, 2, 3, 70000⟩⟩) :=
  (spec_c1_cache_reuse (fun cs => String.mk cs)
    [("f", ⟨"f", "data/h/h", ⟨"u", "g", 1, 2, 3, 70000⟩⟩)] "f"
    ⟨⟨"u", "g", 1, 2, 3, 70000⟩, ['x']⟩ (by decide)).1
    ⟨"f", "data/h/h", ⟨"u", "g", 1, 2, 3, 70000⟩⟩
    (by decide) (by decide) (by decide)

/-- C2: For every pair (new entry from the freshly built manifest, old
entry from the latest manifest, possibly the sentinel), the decision
procedure `needs_put` — as `backup` invokes it, with the new entry first —
reports needs-upload iff the checksums differ in at least one direction
(`old.checksum_differs(new) OR new.checksum_differs(old)`) and the remote
store does not already hold a blob under the new entry's object id. -/
theorem spec_c2_needs_put_iff (bucket_has : String → Bool)
    (new_entry : FileEntry) (old_entry : Entry) :
    needs_put bucket_has new_entry old_entry = true ↔
      ((old_entry.checksum_differs (Entry.file new_entry) = true ∨
        (Entry.file new_entry).checksum_differs old_entry = true) ∧
       bucket_has new_entry.object_id = false) := by
  unfold needs_put
  by_cases h1 : (Entry.file new_entry).checksum_differs old_entry <;>
    by_cases h2 : old_entry.checksum_differs (Entry.file new_entry) <;>
      by_cases h3 : bucket_has new_entry.object_id <;>
        simp [h1, h2, h3]

/-- C4: A manifest lookup for an absent path never raises and returns the
`NullFileEntry` sentinel, whose `checksum_differs` is true against every
entry, and against which every real `FileEntry`'s `checksum_differs` is
also true. -/
theorem spec_c4_sentinel (m : Manifest) (p : String)
    (habsent : dictGet m.manifest p = none) :
    Manifest.getitem m p = Entry.null ∧
    (∀ ent : Entry, Entry.null.checksum_differs ent = true) ∧
    (∀ f : FileEntry, (Entry.file f).checksum_differs Entry.null = true) := by
  refine ⟨?_, fun ent => rfl, fun f => ?_⟩
  · simp [Manifest.getitem, habsent]
  · simp [Entry.checksum_differs, Entry.checksumAttr]

theorem spec_c4_sentinel_witness :
    Manifest.getitem ⟨"n", []⟩ "q" = Entry.null ∧
    Entry.null.checksum_differs
      (Entry.file ⟨"p", "o", ⟨"u", "g", 1, 2, 3, 4⟩⟩) = true ∧
    (Entry.file ⟨"p", "o", ⟨"u", "g", 1, 2, 3, 4⟩⟩).checksum_differs
      Entry.null = true := by
  obtain ⟨h1, h2, h3⟩ := spec_c4_sentinel ⟨"n", []⟩ "q" (by decide)
  exact ⟨h1, h2 _, h3 _⟩

/-- C6: If the freshly built manifest equals the latest one under
whole-manifest structural equality, `backup` performs no writes at all:
no archive is put and no manifest is persisted. -/
theorem spec_c6_no_change_no_writes (bucket_has : String → Bool)
    (latest_manifest new_manifest : Manifest)
    (heq : Manifest.beq new_manifest latest_manifest = true) :
    backup bucket_has latest_manifest new_manifest = [] := by
  unfold backup
  rw [if_pos heq]

theorem spec_c6_no_change_no_writes_witness :
    backup (fun _ => false)
      ⟨"n", [("p", ⟨"p", "o", ⟨"u", "g", 1, 2, 3, 4⟩⟩)]⟩
      ⟨"n", [("p", ⟨"p", "o", ⟨"u", "g", 1, 2, 3, 4⟩⟩)]⟩ = [] :=
  spec_c6_no_change_no_writes (fun _ => false)
    ⟨"n", [("p", ⟨"p", "o", ⟨"u", "g", 1, 2, 3, 4⟩⟩)]⟩
    ⟨"n", [("p", ⟨"p", "o", ⟨"u", "g", 1, 2, 3, 4⟩⟩)]⟩ (by decide)

/-- C7: Files with identical content and identical basenames get equal
object ids, each of the form
`data/{sha1(basename(path))}/{sha1(full content)}`, and every entry's
derived checksum is the final path segment (basename) of its object id. -/
theorem spec_c7_object_id_dedup (sha1 : List Char → String)
    (p1 p2 : String) (c1 c2 : List Char)
    (hb : basename p1 = basename p2) (hc : c1 = c2) :
    object_id_for sha1 p1 c1 = object_id_for sha1 p2 c2 ∧
    object_id_for sha1 p1 c1 =
      "data/" ++ sha1sumStr sha1 (basename p1) ++ "/" ++
        checksum_for_file sha1 c1 ∧
    (∀ e : FileEntry, e.checksum = basename e.object_id) := by
  refine ⟨?_, rfl, fun e => rfl⟩
  rw [object_id_for, object_id_for, hb, hc]

/-- C8: `Tree.fmap` preserves the tree's shape while applying `f` to every
node value, so the pre-order flattening of `t.fmap f` is `f` mapped over
the pre-order flattening of `t`. -/
theorem spec_c8_fmap_shape_flatten {α β : Type} (f : α → β) (t : Tree α) :
    (t.fmap f).shape = t.shape ∧ (t.fmap f).flatten = t.flatten.map f :=
  ⟨tree_shape_fmap f t, tree_flatten_fmap f t⟩

theorem parse_rows_error {rows : List (List String)}
    (h : ∃ row ∈ rows, (FileEntry.from_fields row).isOk = false) :
    (parse_rows rows).isOk = false := by
  induction rows with
  | nil => simp at h
  | cons row rest ih =>
    obtain ⟨r, hr, hbad⟩ := h
    rcases List.mem_cons.mp hr with rfl | hr'
    · unfold parse_rows
      cases hf : FileEntry.from_fields r with
      | error m => simp [Except.isOk, Except.toBool]
      | ok e =>
        rw [hf] at hbad
        simp [Except.isOk, Except.toBool] at hbad
    · unfold parse_rows
      cases hf : FileEntry.from_fields row with
      | error m => simp [Except.isOk, Except.toBool]
      | ok e =>
        have hrest := ih ⟨r, hr', hbad⟩
        cases hpr : parse_rows rest with
        | error m => simp [Except.isOk, Except.toBool]
        | ok es =>
          rw [hpr] at hrest
          simp [Except.isOk, Except.toBool] at hrest

theorem create_cache_error {rows : List (List String)}
    (h : ∃ row ∈ rows, (FileEntry.from_fields row).isOk = false) :
    (create_cache (CacheRead.records rows)).isOk = false := by
  have hpr := parse_rows_error h
  show (match parse_rows rows with
    | Except.error e => (Except.error e : Except String (List (String × FileEntry)))
    | Except.ok entries =>
      Except.ok (dictOf (entries.map (fun (e : FileEntry) => (e.path, e))))).isOk =
      false
  cases hp : parse_rows rows with
  | error m => simp [Except.isOk, Except.toBool]
  | ok es =>
    rw [hp] at hpr
    simp [Except.isOk, Except.toBool] at hpr

theorem for_directory_cache_error {sha1 : List Char → String} {path : String}
    {files : List (String × LiveFile)} {rows : List (List String)}
    (h : ∃ row ∈ rows, (FileEntry.from_fields row).isOk = false) :
    (DirectoryEntry.for_directory sha1 (CacheRead.records rows) path
      files).isOk = false := by
  have hcc := create_cache_error h
  unfold DirectoryEntry.for_directory
  cases hc : create_cache (CacheRead.records rows) with
  | error m => simp [Except.isOk, Except.toBool]
  | ok cache =>
    rw [hc] at hcc
    simp [Except.isOk, Except.toBool] at hcc

/-- C3 (counterexample): for a Manifest whose dict key differs from its
entry's `path` field — such as `Manifest("n", {"a": FileEntry("b", ...)})`,
constructible because `Manifest.__init__` accepts any mapping — the
`to_csv`/`from_csv` round trip rekeys the entry by its own path, so the
resulting mapping differs from the original and the round-tripped Manifest
is not equal to the original. -/
theorem spec_c3_roundtrip_counterexample :
    Manifest.from_csv (Manifest.to_csv
      ⟨"n", [("a", ⟨"b", "data/x/y", ⟨"u", "g", 1, 2, 3, 4⟩⟩)]⟩) =
      Except.ok ⟨"n", [("b", ⟨"b", "data/x/y", ⟨"u", "g", 1, 2, 3, 4⟩⟩)]⟩ ∧
    Manifest.beq ⟨"n", [("b", ⟨"b", "data/x/y", ⟨"u", "g", 1, 2, 3, 4⟩⟩)]⟩
      ⟨"n", [("a", ⟨"b", "data/x/y", ⟨"u", "g", 1, 2, 3, 4⟩⟩)]⟩ = false :=
  ⟨rfl, by decide⟩

/-- C3 (amended): for every Manifest whose entry mapping has unique keys,
each key equal to its entry's `path` (and entries with non-empty path and
object id, as `FileEntry.__init__` guarantees for every reachable entry),
parsing the `to_csv` output — or the same stream with its entry records in
any order — succeeds and yields a Manifest equal to the original, name and
mapping both preserved. -/
theorem spec_c3_roundtrip (m : Manifest)
    (hnod : (m.manifest.map Prod.fst).Nodup)
    (hcoh : ∀ kv ∈ m.manifest, kv.1 = kv.2.path)
    (hval : ∀ kv ∈ m.manifest, kv.2.path ≠ "" ∧ kv.2.object_id ≠ "") :
    (∃ m', Manifest.from_csv (Manifest.to_csv m) = Except.ok m' ∧
      Manifest.beq m' m = true) ∧
    (∀ pairs', m.manifest.Perm pairs' →
      ∃ m', Manifest.from_csv
          ([m.name] :: pairs'.map (fun kv => kv.2.as_fields)) =
        Except.ok m' ∧ Manifest.beq m' m = true) := by
  have main : ∀ pairs', m.manifest.Perm pairs' →
      ∃ m', Manifest.from_csv
          ([m.name] :: pairs'.map (fun kv => kv.2.as_fields)) =
        Except.ok m' ∧ Manifest.beq m' m = true := by
    intro pairs' hperm
    have hnod' : (pairs'.map Prod.fst).Nodup :=
      ((hperm.map Prod.fst).nodup_iff).mp hnod
    have hcoh' : ∀ kv ∈ pairs', kv.1 = kv.2.path :=
      fun kv hkv => hcoh kv (hperm.mem_iff.mpr hkv)
    have hval' : ∀ kv ∈ pairs', kv.2.path ≠ "" ∧ kv.2.object_id ≠ "" :=
      fun kv hkv => hval kv (hperm.mem_iff.mpr hkv)
    have hvnod : ((pairs'.map Prod.snd).map FileEntry.path).Nodup := by
      rw [List.map_map]
      have hkeys : pairs'.map (FileEntry.path ∘ Prod.snd) = pairs'.map Prod.fst :=
        List.map_congr_left (fun kv hkv => (hcoh' kv hkv).symm)
      rw [hkeys]
      exact hnod'
    have hvval : ∀ e ∈ pairs'.map Prod.snd, e.path ≠ "" ∧ e.object_id ≠ "" := by
      intro e he
      rcases List.mem_map.mp he with ⟨kv, hkv, rfl⟩
      exact hval' kv hkv
    have hrows : pairs'.map (fun kv => kv.2.as_fields) =
        (pairs'.map Prod.snd).map FileEntry.as_fields := by
      rw [List.map_map]
      rfl
    have hres := from_csv_rows_append (pairs'.map Prod.snd) [] hvval hvnod
      (by simp)
    have hpairs : (pairs'.map Prod.snd).map (fun e => (e.path, e)) = pairs' := by
      rw [List.map_map]
      have h1 : pairs'.map ((fun e => (e.path, e)) ∘ Prod.snd) =
          pairs'.map (fun kv => kv) :=
        List.map_congr_left (fun kv hkv => by
          show (kv.2.path, kv.2) = kv
          rw [← hcoh' kv hkv])
      rw [h1, List.map_id']
    refine ⟨⟨m.name, pairs'⟩, ?_, ?_⟩
    · unfold Manifest.from_csv
      rw [hrows]
      simp only [hres, List.nil_append, hpairs, getField, List.get?,
        Bind.bind, Except.bind, pure, Except.pure]
    · unfold Manifest.beq
      rw [Bool.and_eq_true]
      exact ⟨by simp, dictBeq_of_perm hperm.symm hnod⟩
  refine ⟨?_, main⟩
  obtain ⟨m', hm1, hm2⟩ := main m.manifest (List.Perm.refl _)
  exact ⟨m', hm1, hm2⟩

theorem spec_c3_roundtrip_witness :
    ∃ m', Manifest.from_csv (Manifest.to_csv
      ⟨"n", [("b", ⟨"b", "data/x/y", ⟨"u", "g", 1, 2, 3, 4⟩⟩)]⟩) =
        Except.ok m' ∧
      Manifest.beq m'
        ⟨"n", [("b", ⟨"b", "data/x/y", ⟨"u", "g", 1, 2, 3, 4⟩⟩)]⟩ = true :=
  (spec_c3_roundtrip ⟨"n", [("b", ⟨"b", "data/x/y", ⟨"u", "g", 1, 2, 3, 4⟩⟩)]⟩
    (by decide) (by decide) (by decide)).1

/-- C5 (counterexample): `for_directory` does not survive a malformed
cache: a cache record whose mode field is not a numeral makes
`FileEntry.from_fields` raise `ValueError` inside `create_cache`, which
catches only `OSError`/`IOError`, so the scan fails even though the
directory exists. -/
theorem spec_c5_counterexample :
    (DirectoryEntry.for_directory (fun cs => String.mk cs)
      (CacheRead.records [["p", "oid", "u", "g", "notanint", "1", "2", "3"]])
      "/d" []).isOk = false := by decide

/-- C5 (amended): an `OSError`/`IOError` while opening or reading the
cache file (absent or unreadable) is swallowed — `create_cache` returns
the empty dict and the scan proceeds and succeeds — but malformed cache
content (any record on which `FileEntry.from_fields` raises) propagates
out of `for_directory`. -/
theorem spec_c5_cache_failure (sha1 : List Char → String) (path : String)
    (files : List (String × LiveFile)) (rows : List (List String))
    (hp : ∀ pf ∈ files, pf.1 ≠ "")
    (hbad : ∃ row ∈ rows, (FileEntry.from_fields row).isOk = false) :
    create_cache CacheRead.osError = Except.ok [] ∧
    (DirectoryEntry.for_directory sha1 CacheRead.osError path files).isOk =
      true ∧
    (DirectoryEntry.for_directory sha1 (CacheRead.records rows) path
      files).isOk = false := by
  refine ⟨rfl, ?_, for_directory_cache_error hbad⟩
  obtain ⟨ents, hents⟩ := @scan_files_ok sha1 [] files hp
  show (match scan_files sha1 [] files with
    | Except.error e => (Except.error e : Except String DirectoryEntry)
    | Except.ok entries => Except.ok ⟨path, entries⟩).isOk = true
  rw [hents]
  rfl

theorem spec_c5_cache_failure_witness :
    create_cache CacheRead.osError = Except.ok [] ∧
    (DirectoryEntry.for_directory (fun cs => String.mk cs) CacheRead.osError
      "/d" [("f", ⟨⟨"u", "g", 1, 2, 3, 70000⟩, ['x']⟩)]).isOk = true ∧
    (DirectoryEntry.for_directory (fun cs => String.mk cs)
      (CacheRead.records [["p", "oid", "u", "g", "notanint", "1", "2", "3"]])
      "/d" [("f", ⟨⟨"u", "g", 1, 2, 3, 70000⟩, ['x']⟩)]).isOk = false :=
  spec_c5_cache_failure (fun cs => String.mk cs) "/d"
    [("f", ⟨⟨"u", "g", 1, 2, 3, 70000⟩, ['x']⟩)]
    [["p", "oid", "u", "g", "notanint", "1", "2", "3"]]
    (by decide) (by decide)

/-- C9: a successful `for_directory` scan never returns the
`NullFileEntry` sentinel among its entries — the cache-lookup default
cannot survive the `stat_info` comparison, since its empty tuple never
equals a live six-field `StatInfo` — and every returned entry is a real
`FileEntry` with a non-empty path and a non-empty object id. -/
theorem spec_c9_no_sentinel (sha1 : List Char → String) (read : CacheRead)
    (path : String) (files : List (String × LiveFile)) (d : DirectoryEntry)
    (h : DirectoryEntry.for_directory sha1 read path files = Except.ok d) :
    ∀ ent ∈ d.entries, ent ≠ Entry.null ∧
      ∃ f, ent = Entry.file f ∧ f.path ≠ "" ∧ f.object_id ≠ "" := by
  unfold DirectoryEntry.for_directory at h
  cases hcc : create_cache read with
  | error m =>
    rw [hcc] at h
    exact absurd h (by simp)
  | ok cache =>
    rw [hcc] at h
    have h' : (match scan_files sha1 cache files with
      | Except.error e => (Except.error e : Except String DirectoryEntry)
      | Except.ok entries => Except.ok ⟨path, entries⟩) = Except.ok d := h
    cases hsf : scan_files sha1 cache files with
    | error m =>
      rw [hsf] at h'
      exact absurd h' (by simp)
    | ok ents =>
      rw [hsf] at h'
      simp at h'
      subst h'
      intro ent hent
      obtain ⟨pf, hpf, hge⟩ := scan_files_mem hsf ent hent
      obtain ⟨f, hf, hfp, hfo⟩ :=
        get_file_entry_ok_inv (create_cache_valid hcc) hge
      exact ⟨by simp [hf], f, hf, hfp, hfo⟩

theorem spec_c9_no_sentinel_witness :
    Entry.file ⟨"f", "data/h/h", ⟨"u", "g", 1, 2, 3, 70000⟩⟩ ≠ Entry.null ∧
    ∃ f, Entry.file ⟨"f", "data/h/h", ⟨"u", "g", 1, 2, 3, 70000⟩⟩ =
      Entry.file f ∧ f.path ≠ "" ∧ f.object_id ≠ "" :=
  spec_c9_no_sentinel (fun cs => String.mk cs)
    (CacheRead.records [["f", "data/h/h", "u", "g", "1", "2", "3", "70000"]])
    "/d" [("f", ⟨⟨"u", "g", 1, 2, 3, 70000⟩, ['x']⟩)]
    ⟨"/d", [Entry.file ⟨"f", "data/h/h", ⟨"u", "g", 1, 2, 3, 70000⟩⟩]⟩ rfl
    (Entry.file ⟨"f", "data/h/h", ⟨"u", "g", 1, 2, 3, 70000⟩⟩) (by decide)

/-- C10: every Manifest produced by `from_csv` or by `from_filesystem`
satisfies key coherence: each path key in the mapping stores an entry
whose `path` field equals that key. -/
theorem spec_c10_key_coherence :
    (∀ (rows : List (List String)) (m : Manifest),
      Manifest.from_csv rows = Except.ok m →
      ∀ p e, dictGet m.manifest p = some e → e.path = p) ∧
    (∀ (hostname user timestamp : String) (roots : List (Tree DirectoryEntry))
      (m : Manifest),
      Manifest.from_filesystem hostname user timestamp roots = Except.ok m →
      ∀ p e, dictGet m.manifest p = some e → e.path = p) := by
  constructor
  · intro rows m h p e hg
    cases rows with
    | nil => simp [Manifest.from_csv] at h
    | cons nameRow rest =>
      unfold Manifest.from_csv at h
      obtain ⟨nm, hnm, h⟩ := bind_ok_inv h
      obtain ⟨fe, hfe, h⟩ := bind_ok_inv h
      have hm : m = ⟨nm, fe⟩ := by
        have := h.symm
        simpa [pure, Except.pure] using this
      subst hm
      have hcoh := from_csv_rows_coherent (by simp) hfe
      exact (hcoh (p, e) (mem_of_dictGet hg)).symm
  · intro hostname user timestamp roots m h p e hg
    unfold Manifest.from_filesystem at h
    by_cases h1 : hostname = ""
    · rw [if_pos h1] at h
      exact absurd h (by simp)
    · rw [if_neg h1] at h
      by_cases h2 : user = ""
      · rw [if_pos h2] at h
        exact absurd h (by simp)
      · rw [if_neg h2] at h
        by_cases h3 : roots.isEmpty = true
        · rw [if_pos h3] at h
          exact absurd h (by simp)
        · rw [if_neg h3] at h
          cases hmr : merge_roots [] roots with
          | error msg =>
            rw [hmr] at h
            exact absurd h (by simp)
          | ok fe =>
            rw [hmr] at h
            simp at h
            subst h
            have hcoh := merge_roots_coherent (by simp) hmr
            exact (hcoh (p, e) (mem_of_dictGet hg)).symm

theorem spec_c10_key_coherence_witness :
    FileEntry.path ⟨"p", "o", ⟨"u", "g", 1, 2, 3, 4⟩⟩ = "p" :=
  spec_c10_key_coherence.1 [["n"], ["p", "o", "u", "g", "1", "2", "3", "4"]]
    ⟨"n", [("p", ⟨"p", "o", ⟨"u", "g", 1, 2, 3, 4⟩⟩)]⟩ rfl
    "p" ⟨"p", "o", ⟨"u", "g", 1, 2, 3, 4⟩⟩ (by decide)

theorem spec_c7_object_id_dedup_witness :
    basename "a/f" = basename "b/f" ∧ (['z'] : List Char) = ['z'] ∧
    (object_id_for (fun cs => String.mk cs) "a/f" ['z'] =
      object_id_for (fun cs => String.mk cs) "b/f" ['z'] ∧
    object_id_for (fun cs => String.mk cs) "a/f" ['z'] =
      "data/" ++ sha1sumStr (fun cs => String.mk cs) (basename "a/f") ++ "/" ++
        checksum_for_file (fun cs => String.mk cs) ['z'] ∧
    (∀ e : FileEntry, e.checksum = basename e.object_id)) :=
  ⟨by decide, rfl,
    spec_c7_object_id_dedup (fun cs => String.mk cs) "a/f" "b/f" ['z'] ['z']
      (by decide) rfl⟩

end Tardis
